import Mathlib

/-!
Verification of the StockMarketSim data pipeline.

This file gives a shallow embedding of the repository's core numeric code:

* `src/ml_pipeline/feature_engineering.py` — the tabular feature assembler
  `compute_orthogonal_features`, built on pandas float series.  Pandas float
  columns are modelled by lists of `FP`, an exact-rational IEEE-style value
  carrying `nan` (missing value), `pinf`/`ninf` (infinities, produced by
  division by zero) and finite rationals.  The pandas operations used by the
  source (`diff`, `where`, `rolling(n).mean()`, `shift`, elementwise
  arithmetic, `dropna`, column assignment and selection) are embedded one by
  one with their NaN-propagation semantics.
* `src/scripts/train_stock_model.py` — the sequential path: `calculate_rsi`,
  `calculate_sma_ratio`, `calculate_atr_pct`, `calculate_relative_volume`
  and `create_sequences_multi_factor`, plain `numpy` loops over floats,
  modelled over `ℝ` (the source's `np.log` becomes `Real.log`).
* `src/ml_pipeline/model_training.py` — the chronological split and the
  minimum-row training safeguard, plus the alert endpoint configuration.
* `src/ml_pipeline/data_ingestion.py` — the `INDIANAPI_KEY` configuration.
-/

namespace StockSim

/-! ## Part 1: pandas float values (`FP`) and series operations -/

/-- A pandas/numpy float value: `nan` (missing), positive/negative infinity,
or a finite value (modelled exactly as a rational). -/
inductive FP where
  | nan  : FP
  | pinf : FP
  | ninf : FP
  | fin  : ℚ → FP
deriving DecidableEq

namespace FP

/-- Float negation. -/
def neg : FP → FP
  | nan => nan
  | pinf => ninf
  | ninf => pinf
  | fin q => fin (-q)

/-- Float addition: NaN propagates, `+∞ + -∞ = NaN`. -/
def add : FP → FP → FP
  | nan, _ => nan
  | _, nan => nan
  | pinf, ninf => nan
  | ninf, pinf => nan
  | pinf, _ => pinf
  | _, pinf => pinf
  | ninf, _ => ninf
  | _, ninf => ninf
  | fin a, fin b => fin (a + b)

/-- Float subtraction. -/
def sub (a b : FP) : FP := a.add b.neg

/-- Float division: NaN propagates, `x / 0` is `±∞` for `x ≠ 0` and NaN for
`x = 0`, `finite / ±∞ = 0`. -/
def div : FP → FP → FP
  | nan, _ => nan
  | _, nan => nan
  | pinf, pinf => nan
  | pinf, ninf => nan
  | ninf, pinf => nan
  | ninf, ninf => nan
  | pinf, fin b => if b < 0 then ninf else pinf
  | ninf, fin b => if b < 0 then pinf else ninf
  | fin _, pinf => fin 0
  | fin _, ninf => fin 0
  | fin a, fin b =>
      if b = 0 then (if a = 0 then nan else if 0 < a then pinf else ninf)
      else fin (a / b)

/-- Float absolute value. -/
def abs : FP → FP
  | nan => nan
  | pinf => pinf
  | ninf => pinf
  | fin q => fin |q|

/-- Comparison `v > q` against a rational constant; NaN compares `false`
(pandas comparison semantics). -/
def gtQ : FP → ℚ → Bool
  | nan, _ => false
  | pinf, _ => true
  | ninf, _ => false
  | fin a, q => decide (q < a)

/-- Comparison `v < q` against a rational constant; NaN compares `false`. -/
def ltQ : FP → ℚ → Bool
  | nan, _ => false
  | pinf, _ => false
  | ninf, _ => true
  | fin a, q => decide (a < q)

/-- Is this value NaN? -/
def isNaN : FP → Bool
  | nan => true
  | _ => false

/-- Maximum of two values skipping NaN, as `DataFrame.max(axis=1)`
(with its default `skipna=True`) computes it. -/
def maxSkip : FP → FP → FP
  | nan, b => b
  | a, nan => a
  | pinf, _ => pinf
  | _, pinf => pinf
  | ninf, b => b
  | a, ninf => a
  | fin a, fin b => fin (max a b)

/-- Sum of a list of float values (NaN in the list propagates). -/
def sumL (l : List FP) : FP := l.foldr add (fin 0)

end FP

/-- Positional access into a float series; out-of-range reads give NaN
(all columns of one frame share a length, so in-pipeline reads are in
range). -/
def getF (l : List FP) (i : ℕ) : FP := l.getD i FP.nan

/-- Embeds `Series.diff()`: first entry NaN, then consecutive differences
(`out[i] = x[i] - x[i-1]`). -/
def sdiff (l : List FP) : List FP :=
  match l with
  | [] => []
  | _ :: _ => FP.nan :: List.zipWith (fun cur prev => cur.sub prev) l.tail l

/-- Embeds `delta.where(delta > 0, 0)`: keep entries `> 0`, replace the rest
(including NaN, which compares false) by `0`. -/
def whereGtZero (l : List FP) : List FP :=
  l.map fun v => if v.gtQ 0 then v else FP.fin 0

/-- Embeds `-delta.where(delta < 0, 0)`: keep entries `< 0`, replace the rest by
`0`, then negate the whole series. -/
def negWhereLtZero (l : List FP) : List FP :=
  l.map fun v => (if v.ltQ 0 then v else FP.fin 0).neg

/-- The length-`p` trailing window ending at index `i` (used only when
`p ≤ i + 1`, where the index arithmetic is exact). -/
def windowSlice (l : List FP) (i p : ℕ) : List FP :=
  (l.drop (i + 1 - p)).take p

/-- Embeds `Series.rolling(window=p).mean()`: NaN until a full window of `p`
observations is available (default `min_periods`), then the window mean;
a NaN inside the window propagates. -/
def rollingMean (p : ℕ) (l : List FP) : List FP :=
  (List.range l.length).map fun i =>
    if i + 1 < p then FP.nan else (FP.sumL (windowSlice l i p)).div (FP.fin p)

/-- Embeds `Series.shift()`: shift forward by one, NaN at the start. -/
def shiftOne (l : List FP) : List FP :=
  match l with
  | [] => []
  | _ :: _ => FP.nan :: l.dropLast

/-- Embeds `Series.shift(-k)`: shift backward by `k`, NaN at the end. -/
def shiftNeg (k : ℕ) (l : List FP) : List FP :=
  l.drop k ++ List.replicate (min k l.length) FP.nan

/-! ## Part 2: the tabular indicator columns
(`compute_orthogonal_features`, `src/ml_pipeline/feature_engineering.py`) -/

/-- Embeds `gain = (delta.where(delta > 0, 0)).rolling(window=14).mean()`. -/
def rsiGain (close : List FP) : List FP :=
  rollingMean 14 (whereGtZero (sdiff close))

/-- Embeds `loss = (-delta.where(delta < 0, 0)).rolling(window=14).mean()`. -/
def rsiLoss (close : List FP) : List FP :=
  rollingMean 14 (negWhereLtZero (sdiff close))

/-- Embeds `RSI_14 = 100 - (100 / (1 + gain / loss))`. -/
def rsiCol (close : List FP) : List FP :=
  List.zipWith
    (fun g l => (FP.fin 100).sub ((FP.fin 100).div ((FP.fin 1).add (g.div l))))
    (rsiGain close) (rsiLoss close)

/-- Embeds `SMA_Ratio = close.rolling(50).mean() / close.rolling(200).mean()`. -/
def smaRatioCol (close : List FP) : List FP :=
  List.zipWith FP.div (rollingMean 50 close) (rollingMean 200 close)

/-- True range per bar: `np.max` (which skips NaN, as `DataFrame.max`)
over `high - low`, `|high - close.shift()|`, `|low - close.shift()|`. -/
def trueRangeCol (high low close : List FP) : List FP :=
  List.zipWith
    (fun h lpc =>
      FP.maxSkip
        (FP.maxSkip (h.sub lpc.1) ((h.sub lpc.2).abs))
        ((lpc.1.sub lpc.2).abs))
    high (low.zip (shiftOne close))

/-- Embeds `ATR_Pct = true_range.rolling(14).mean() / close`. -/
def atrCol (high low close : List FP) : List FP :=
  List.zipWith FP.div (rollingMean 14 (trueRangeCol high low close)) close

/-- Embeds `Vol_SMA_20 = volume.rolling(window=20).mean()`. -/
def volSmaCol (vol : List FP) : List FP := rollingMean 20 vol

/-- Embeds `Relative_Volume = volume / Vol_SMA_20`. -/
def relVolCol (vol : List FP) : List FP :=
  List.zipWith FP.div vol (volSmaCol vol)

/-- Embeds `Forward_5D_Return = close.shift(-5) / close - 1.0`. -/
def fwdReturnCol (close : List FP) : List FP :=
  List.zipWith (fun shifted cur => (shifted.div cur).sub (FP.fin 1))
    (shiftNeg 5 close) close

/-- Embeds `Target = (Forward_5D_Return > 0.005).astype(int)`: NaN compares
false, so the column is total (0/1 valued). -/
def targetCol (fwd : List FP) : List FP :=
  fwd.map fun v => FP.fin (if v.gtQ (1 / 200) then 1 else 0)

/-! ## Part 3: the DataFrame model and `compute_orthogonal_features` -/

/-- A pandas DataFrame with numeric columns: an ordered association list of
column name to column values (all columns of a well-formed frame share one
length; the date index is kept outside the columns, as it is after
`set_index`). -/
abbrev DF := List (String × List FP)

namespace DF

/-- Column lookup, `df[k]`. -/
def getCol (df : DF) (k : String) : List FP :=
  match df.find? (fun c => c.1 == k) with
  | some c => c.2
  | none => []

/-- Column assignment `df[k] = v`: overwrite in place when the column
exists, otherwise append it (pandas column order). -/
def setCol (df : DF) (k : String) (v : List FP) : DF :=
  if df.any (fun c => c.1 == k) then
    df.map (fun c => if c.1 == k then (k, v) else c)
  else df ++ [(k, v)]

/-- Number of rows of the frame. -/
def height (df : DF) : ℕ :=
  match df with
  | [] => 0
  | c :: _ => c.2.length

/-- The row mask of `dropna()`: `true` at the rows whose value is non-NaN
in every column. -/
def naMask (df : DF) : List Bool :=
  df.foldr (fun c acc => List.zipWith (fun v b => !v.isNaN && b) c.2 acc)
    (List.replicate (height df) true)

/-- Restrict a column to the rows selected by the mask. -/
def maskCol (mask : List Bool) (col : List FP) : List FP :=
  (List.zipWith (fun b v => if b then [v] else []) mask col).flatten

/-- Embeds `df.dropna(inplace=True)`: drop every row that has a NaN in any
column, keeping the remaining rows in order. -/
def dropna (df : DF) : DF :=
  df.map fun c => (c.1, maskCol (naMask df) c.2)

/-- Column projection `df[ks]` in the order given. -/
def select (df : DF) (ks : List String) : DF :=
  ks.map fun k => (k, df.getCol k)

end DF

/-- The column projection returned by the assembler
(`features_to_keep` in the source). -/
def featuresToKeep : List String :=
  ["Open", "High", "Low", "Close", "Volume",
   "RSI_14", "SMA_Ratio", "ATR_Pct", "Relative_Volume",
   "Target", "Forward_5D_Return"]

/-- Embeds `compute_orthogonal_features(df)` from
`src/ml_pipeline/feature_engineering.py`.

The Python function mutates the caller's frame in place (column
assignments and `dropna(inplace=True)`), then returns the
`features_to_keep` projection of the mutated frame.  The embedding passes
the state explicitly: the result is the pair
(caller-visible frame after the call, returned frame).
The `'Date' in df.columns` branch (`set_index`) removes the `Date` column
from the columns; frames already indexed by date (as produced by
`process_all_tickers`) have no such column. -/
def compute_orthogonal_features (df : DF) : DF × DF :=
  if DF.height df < 200 then (df, [])
  else
    let df0 := if df.any (fun c => c.1 == "Date")
               then df.filter (fun c => c.1 != "Date") else df
    let close := DF.getCol df0 "Close"
    let high := DF.getCol df0 "High"
    let low := DF.getCol df0 "Low"
    let vol := DF.getCol df0 "Volume"
    let d1 := DF.setCol df0 "RSI_14" (rsiCol close)
    let d2 := DF.setCol d1 "SMA_Ratio" (smaRatioCol close)
    let d3 := DF.setCol d2 "ATR_Pct" (atrCol high low close)
    let d4 := DF.setCol d3 "Vol_SMA_20" (volSmaCol vol)
    let d5 := DF.setCol d4 "Relative_Volume" (relVolCol vol)
    let d6 := DF.setCol d5 "Forward_5D_Return" (fwdReturnCol close)
    let d7 := DF.setCol d6 "Target" (targetCol (fwdReturnCol close))
    let d8 := DF.dropna d7
    (d8, DF.select d8 featuresToKeep)

/-! ## Part 4: the concrete 260-bar scenario series -/

/-- Scenario closes: 260 strictly increasing values `100 + i`. -/
def scenarioClose : List FP :=
  (List.range 260).map fun (i : ℕ) => FP.fin (100 + (i : ℚ))

/-- Scenario highs: `close * 1.01`. -/
def scenarioHigh : List FP :=
  (List.range 260).map fun (i : ℕ) => FP.fin ((101 / 100) * (100 + (i : ℚ)))

/-- Scenario lows: `close * 0.99`. -/
def scenarioLow : List FP :=
  (List.range 260).map fun (i : ℕ) => FP.fin ((99 / 100) * (100 + (i : ℚ)))

/-- Scenario volumes: constant. -/
def scenarioVol : List FP := List.replicate 260 (FP.fin 1000)

/-- The 260-bar scenario frame (OHLCV, dates already the index). -/
def scenarioDF : DF :=
  [("Open", scenarioClose), ("High", scenarioHigh), ("Low", scenarioLow),
   ("Close", scenarioClose), ("Volume", scenarioVol)]

/-! ## Part 5: the sequential path
(`src/scripts/train_stock_model.py`, plain numpy loops over floats,
modelled over `ℝ`; `np.log` becomes `Real.log`) -/

/-- Configuration `SEQ_LENGTH = 60`. -/
def SEQ_LENGTH : ℕ := 60

/-- Embeds `deltas = np.diff(prices)`: `deltas[i] = prices[i+1] - prices[i]`. -/
noncomputable def seqDeltas (prices : List ℝ) : List ℝ :=
  List.zipWith (fun prev cur => cur - prev) prices prices.tail

open Classical in
/-- Embeds `gains = np.where(deltas > 0, deltas, 0)`. -/
noncomputable def seqGains (prices : List ℝ) : List ℝ :=
  (seqDeltas prices).map fun d => if 0 < d then d else 0

open Classical in
/-- Embeds `losses = np.where(deltas < 0, -deltas, 0)`. -/
noncomputable def seqLosses (prices : List ℝ) : List ℝ :=
  (seqDeltas prices).map fun d => if d < 0 then -d else 0

/-- Embeds `avg_gain = gains[i-period:i].mean()` in `calculate_rsi`. -/
noncomputable def rsiAvgGain (prices : List ℝ) (period i : ℕ) : ℝ :=
  (((seqGains prices).drop (i - period)).take period).sum / period

/-- Embeds `avg_loss = losses[i-period:i].mean()` in `calculate_rsi`. -/
noncomputable def rsiAvgLoss (prices : List ℝ) (period i : ℕ) : ℝ :=
  (((seqLosses prices).drop (i - period)).take period).sum / period

open Classical in
/-- Embeds `calculate_rsi(prices, period)` as a function of the index.

The source initializes the array to the neutral default `50.0` and the
loop `for i in range(period, len(deltas))` writes index `i + 1`, each
index at most once, so the final array is this index-wise function
(indices written are `period + 1 ≤ j ≤ len(deltas)`; everything else
keeps the default).  The `avg_loss == 0` branch yields `100.0`. -/
noncomputable def calculate_rsi (prices : List ℝ) (period : ℕ) : ℕ → ℝ :=
  fun j =>
    if period + 1 ≤ j ∧ j ≤ (seqDeltas prices).length then
      if rsiAvgLoss prices period (j - 1) = 0 then 100
      else 100 - 100 / (1 + rsiAvgGain prices period (j - 1) /
                            rsiAvgLoss prices period (j - 1))
    else 50

open Classical in
/-- Embeds `calculate_sma_ratio(prices, fast, slow)` as a function of the index:
default `1.0`, and for `slow ≤ i < len(prices)` the ratio of the trailing
`fast`- and `slow`-bar means `prices[i-fast:i]` / `prices[i-slow:i]`
(written only when `sma_slow > 0`). -/
noncomputable def calculate_sma_ratio (prices : List ℝ) (fast slow : ℕ) :
    ℕ → ℝ :=
  fun i =>
    if slow ≤ i ∧ i < prices.length then
      let smaFast := ((prices.drop (i - fast)).take fast).sum / fast
      let smaSlow := ((prices.drop (i - slow)).take slow).sum / slow
      if 0 < smaSlow then smaFast / smaSlow else 1
    else 1

open Classical in
/-- Embeds `calculate_atr_pct(highs, lows, closes, period)` as a function of the
index: default `0.0`, and for `period + 1 ≤ i < len(closes)` the mean of
the true ranges over `j in range(i-period, i)` divided by `closes[i]`
(written only when `closes[i] > 0`). -/
noncomputable def calculate_atr_pct (highs lows closes : List ℝ)
    (period : ℕ) : ℕ → ℝ :=
  fun i =>
    if period + 1 ≤ i ∧ i < closes.length then
      let trSum := ((List.range period).map fun k =>
        let j := i - period + k
        max (highs.getD j 0 - lows.getD j 0)
          (max |highs.getD j 0 - closes.getD (j - 1) 0|
               |lows.getD j 0 - closes.getD (j - 1) 0|)).sum
      if 0 < closes.getD i 0 then trSum / period / closes.getD i 0 else 0
    else 0

open Classical in
/-- Embeds `calculate_relative_volume(volumes, period)` as a function of the
index: default `1.0`, and for `period ≤ i < len(volumes)` the current
volume over the trailing `period`-bar mean `volumes[i-period:i]`
(written only when `avg_vol > 0`). -/
noncomputable def calculate_relative_volume (volumes : List ℝ)
    (period : ℕ) : ℕ → ℝ :=
  fun i =>
    if period ≤ i ∧ i < volumes.length then
      let avgVol := ((volumes.drop (i - period)).take period).sum / period
      if 0 < avgVol then volumes.getD i 0 / avgVol else 1
    else 1

/-- Embeds `log_returns = np.diff(np.log(closes))`:
`log_returns[i] = log(closes[i+1]) - log(closes[i])`. -/
noncomputable def logReturns (closes : List ℝ) : List ℝ :=
  List.zipWith (fun prev cur => Real.log cur - Real.log prev)
    closes closes.tail

/-- Embeds `create_sequences_multi_factor(data, seq_length)` from
`src/scripts/train_stock_model.py`.

The source synthesizes `highs = closes * 1.01`, `lows = closes * 0.99`
and draws `volumes = np.random.uniform(800000, 1200000, len(closes))`
afresh on every call; the drawn volume array is modelled as the explicit
argument `volumes`, so one run of the function is one choice of
`volumes`.  For each `i in range(len(log_returns) - seq_length)` the
sample is the window `log_returns[i : i+seq_length]` concatenated with
the four indicators evaluated at `idx = i + seq_length` (the oscillator
scaled by `1/100`), and the target is `log_returns[i + seq_length]`. -/
noncomputable def create_sequences_multi_factor
    (closes volumes : List ℝ) (seqLength : ℕ) :
    List (List ℝ) × List ℝ :=
  if closes.length < 2 then ([], [])
  else
    let highs := closes.map fun c => c * (101 / 100)
    let lows := closes.map fun c => c * (99 / 100)
    let lr := logReturns closes
    let n := lr.length - seqLength
    ((List.range n).map fun i =>
        (lr.drop i).take seqLength ++
          [calculate_rsi closes 14 (i + seqLength) / 100,
           calculate_sma_ratio closes 50 200 (i + seqLength),
           calculate_atr_pct highs lows closes 14 (i + seqLength),
           calculate_relative_volume volumes 20 (i + seqLength)],
     (List.range n).map fun i => lr.getD (i + seqLength) 0)

/-! ## Part 6: chronological split and training safeguard
(`src/ml_pipeline/model_training.py`, `train_model` in
`src/scripts/train_stock_model.py`) -/

/-- The chronological train/validation split used by both training
scripts: `split_idx = int(len(X) * 0.8)`, train `= X[:split_idx]`,
validation `= X[split_idx:]`, no reordering and no randomness.

The Python expression computes `int(n * 0.8)` in IEEE double arithmetic;
the double closest to `0.8` is `0.8 + 2^-54.03`, so `n * 0.8` rounds to a
double in `[⌊4n/5⌋, ⌊4n/5⌋ + 1)` and truncation toward zero yields
exactly `⌊4n/5⌋` for every dataset size `n` below `2^52`; the embedding
uses the exact value `4 * n / 5` (natural floor division). -/
def chronoSplit {α : Type} (xs : List α) : List α × List α :=
  (xs.take (4 * xs.length / 5), xs.drop (4 * xs.length / 5))

/-- Configuration `MIN_VALID_SAMPLES = 50000`. -/
def MIN_VALID_SAMPLES : ℕ := 50000

/-- Outcome of the fire-and-forget webhook POST: either the request
returned, or `requests.post` raised (the `except` branch). -/
inductive AlertDelivery where
  | delivered : AlertDelivery
  | raised : AlertDelivery
deriving DecidableEq

/-- Observable outcome of one `train_xgboost_model` run. -/
structure TrainRun where
  estimatorInvoked : Bool
  alertAttempted : Bool
deriving DecidableEq

/-- The Phase-8 MLOps safeguard in `train_xgboost_model`
(`src/ml_pipeline/model_training.py`): `validRows` is `len(df)` after
`dropna` over the feature and target columns.  Below the minimum the
function prints the structured error, attempts the webhook POST (any
exception is caught and logged) and returns without ever constructing
the estimator; otherwise it proceeds to training.  The delivery outcome
of the alert is received as an argument and ignored by the control flow,
exactly as the `try/except` swallows it. -/
def train_xgboost_model (validRows : ℕ) (_delivery : AlertDelivery) :
    TrainRun :=
  if validRows < MIN_VALID_SAMPLES then
    { estimatorInvoked := false, alertAttempted := true }
  else
    { estimatorInvoked := true, alertAttempted := false }

/-! ## Part 7: credential and endpoint configuration
(`src/ml_pipeline/model_training.py` line 46,
`src/ml_pipeline/data_ingestion.py` line 13) -/

/-- The alert endpoint used by the safeguard: assigned as a string
literal in the function body (the `os.environ` variant is commented
out), so it depends on no injected configuration at all. -/
def webhook_url : String :=
  "https://discord.com/api/webhooks/1474394870029222000/NzERDjzAZEIrR8dwjnfLEn6g81y6Q_-NtIlZQz5Xev202hXTD-MhRCQh9uNbrpVoJ6Rt"

/-- Embeds `INDIANAPI_KEY = os.getenv("INDIANAPI_KEY", "sk-live-...")`: the
process environment is the injected configuration (modelled as a partial
map from variable names to values); when the variable is absent the
embedded default literal is used. -/
def INDIANAPI_KEY (env : String → Option String) : String :=
  (env "INDIANAPI_KEY").getD "sk-live-Oo1mYkKJG5aMxtdpkRmEG7bzfWuGtTPCWD2wCyn7"

/-! ## Theorems: C4, C6, C9 -/

/-- C4: for every assembled tabular dataset with fewer than 50,000 valid
rows the Training Safeguard does not invoke the estimator and attempts an
alert dispatch; with at least 50,000 rows training proceeds; and a
failure of the alert dispatch itself does not change the abort
decision. -/
theorem safeguard_gate (n : ℕ) (d : AlertDelivery) :
    (n < MIN_VALID_SAMPLES →
      (train_xgboost_model n d).estimatorInvoked = false ∧
      (train_xgboost_model n d).alertAttempted = true) ∧
    (MIN_VALID_SAMPLES ≤ n →
      (train_xgboost_model n d).estimatorInvoked = true ∧
      (train_xgboost_model n d).alertAttempted = false) ∧
    (∀ d₂ : AlertDelivery, train_xgboost_model n d = train_xgboost_model n d₂) := by
  refine ⟨fun h => ?_, fun h => ?_, fun d₂ => rfl⟩
  · simp [train_xgboost_model, h]
  · simp [train_xgboost_model, Nat.not_lt.mpr h]

/-- Witness for C4 at the boundary row counts 49,999 and 50,000, with the
alert dispatch raising on the abort path. -/
theorem safeguard_gate_witness :
    ((train_xgboost_model 49999 AlertDelivery.raised).estimatorInvoked = false ∧
     (train_xgboost_model 49999 AlertDelivery.raised).alertAttempted = true) ∧
    ((train_xgboost_model 50000 AlertDelivery.delivered).estimatorInvoked = true ∧
     (train_xgboost_model 50000 AlertDelivery.delivered).alertAttempted = false) ∧
    train_xgboost_model 49999 AlertDelivery.raised =
      train_xgboost_model 49999 AlertDelivery.delivered :=
  ⟨(safeguard_gate 49999 AlertDelivery.raised).1 (by decide),
   (safeguard_gate 50000 AlertDelivery.delivered).2.1 (by decide),
   (safeguard_gate 49999 AlertDelivery.raised).2.2 AlertDelivery.delivered⟩

/-- C6: for every ordered dataset and split fraction 0.8, the Dataset
Partitioner returns a prefix of length `⌊0.8 · N⌋` and a suffix such that
prefix ++ suffix reconstructs the original dataset in order, with no
reordering and no randomness. -/
theorem chronoSplit_spec {α : Type} (xs : List α) :
    (chronoSplit xs).1 ++ (chronoSplit xs).2 = xs ∧
    (chronoSplit xs).1.length = ⌊(0.8 : ℚ) * xs.length⌋₊ ∧
    (chronoSplit xs).2.length = xs.length - ⌊(0.8 : ℚ) * xs.length⌋₊ := by
  have hfloor : ⌊(0.8 : ℚ) * xs.length⌋₊ = 4 * xs.length / 5 := by
    have h1 : (0.8 : ℚ) * xs.length = ((4 * xs.length : ℕ) : ℚ) / ((5 : ℕ) : ℚ) := by
      push_cast; ring
    rw [h1, Nat.floor_div_nat, Nat.floor_natCast]
  have hle : 4 * xs.length / 5 ≤ xs.length := by omega
  refine ⟨List.take_append_drop .., ?_, ?_⟩
  · simp [chronoSplit, hfloor, Nat.min_eq_left hle]
  · simp [chronoSplit, hfloor]

/-- C9 counterexample: with no injected configuration at all, the core
still produces an API key (the embedded `sk-live-` default in
`data_ingestion.py`), and the Training Safeguard's alert endpoint is a
fixed embedded webhook literal — refuting the claim that credentials and
the webhook URL are supplied only as injected configuration. -/
theorem secrets_counterexample :
    INDIANAPI_KEY (fun _ => none) =
      "sk-live-Oo1mYkKJG5aMxtdpkRmEG7bzfWuGtTPCWD2wCyn7" ∧
    INDIANAPI_KEY (fun _ => none) ≠ "" ∧
    webhook_url =
      "https://discord.com/api/webhooks/1474394870029222000/NzERDjzAZEIrR8dwjnfLEn6g81y6Q_-NtIlZQz5Xev202hXTD-MhRCQh9uNbrpVoJ6Rt" := by
  refine ⟨rfl, ?_, rfl⟩
  decide

/-- C9 amended: the API key falls back to an embedded `sk-live-` default
whenever the `INDIANAPI_KEY` environment variable is absent (and uses
the injected value when present), and the alert endpoint is the embedded
Discord webhook literal, independent of any configuration. -/
theorem secrets_amended :
    (∀ (env : String → Option String) (v : String),
      env "INDIANAPI_KEY" = some v → INDIANAPI_KEY env = v) ∧
    (∀ env : String → Option String, env "INDIANAPI_KEY" = none →
      INDIANAPI_KEY env = "sk-live-Oo1mYkKJG5aMxtdpkRmEG7bzfWuGtTPCWD2wCyn7") ∧
    webhook_url =
      "https://discord.com/api/webhooks/1474394870029222000/NzERDjzAZEIrR8dwjnfLEn6g81y6Q_-NtIlZQz5Xev202hXTD-MhRCQh9uNbrpVoJ6Rt" := by
  refine ⟨fun env v h => ?_, fun env h => ?_, rfl⟩
  · simp [INDIANAPI_KEY, h]
  · simp [INDIANAPI_KEY, h]

/-- Witness for C9 amended: a concrete environment carrying a key, and
the empty environment. -/
theorem secrets_amended_witness :
    INDIANAPI_KEY (fun k => if k = "INDIANAPI_KEY" then some "k123" else none) =
      "k123" ∧
    INDIANAPI_KEY (fun _ => none) =
      "sk-live-Oo1mYkKJG5aMxtdpkRmEG7bzfWuGtTPCWD2wCyn7" :=
  ⟨secrets_amended.1 _ "k123" (by simp),
   secrets_amended.2.1 _ rfl⟩

/-! ## Theorems: the 260-bar tabular scenario (C2, C8) -/

set_option maxRecDepth 1000000 in
set_option maxHeartbeats 8000000 in
/-- Kernel evaluation of the assembler on the scenario frame: the emitted
frame's `Open`, `RSI_14` and `Target` columns (the emitted rows are the
original bar indices 199..254, whose closes are 299..354). -/
theorem scenario_select_eq :
    DF.select (compute_orthogonal_features scenarioDF).2
        ["Open", "RSI_14", "Target"] =
      [("Open", (List.range 56).map fun (i : ℕ) => FP.fin (299 + (i : ℚ))),
       ("RSI_14", List.replicate 56 (FP.fin 100)),
       ("Target", List.replicate 56 (FP.fin 1))] := by
  with_unfolding_all rfl

set_option maxRecDepth 400000 in
/-- The three scenario columns, read off `scenario_select_eq`. -/
theorem scenario_cols :
    DF.getCol (compute_orthogonal_features scenarioDF).2 "Open" =
      ((List.range 56).map fun (i : ℕ) => FP.fin (299 + (i : ℚ))) ∧
    DF.getCol (compute_orthogonal_features scenarioDF).2 "RSI_14" =
      List.replicate 56 (FP.fin 100) ∧
    DF.getCol (compute_orthogonal_features scenarioDF).2 "Target" =
      List.replicate 56 (FP.fin 1) := by
  have h := scenario_select_eq
  simpa [DF.select] using h

set_option maxRecDepth 400000 in
/-- Row count of the emitted scenario frame. -/
theorem scenario_height2 :
    DF.height (compute_orthogonal_features scenarioDF).2 = 56 := by
  have hh : DF.height (compute_orthogonal_features scenarioDF).2 =
      (DF.getCol (compute_orthogonal_features scenarioDF).2 "Open").length := by
    with_unfolding_all rfl
  rw [hh, scenario_cols.1, List.length_map, List.length_range]

set_option maxRecDepth 400000 in
/-- Column names of the caller's frame after the call: the five input
columns plus the seven columns the assembler added in place. -/
theorem scenario_mutated_keys :
    (compute_orthogonal_features scenarioDF).1.map Prod.fst =
      ["Open", "High", "Low", "Close", "Volume", "RSI_14", "SMA_Ratio",
       "ATR_Pct", "Vol_SMA_20", "Relative_Volume", "Forward_5D_Return",
       "Target"] := by
  with_unfolding_all rfl

set_option maxRecDepth 400000 in
/-- Row count of the caller's frame after the call (it equals the emitted
frame's row count: `dropna(inplace=True)` shrank the caller's frame). -/
theorem scenario_height1 :
    DF.height (compute_orthogonal_features scenarioDF).1 = 56 := by
  have hh : DF.height (compute_orthogonal_features scenarioDF).1 =
      DF.height (compute_orthogonal_features scenarioDF).2 := by
    with_unfolding_all rfl
  rw [hh, scenario_height2]

set_option maxRecDepth 400000 in
/-- C2 counterexample: on the 260-bar scenario series (closes `100 + i`,
strictly increasing; high `= close·1.01`; low `= close·0.99`; constant
volume) the Tabular Feature Assembler emits 56 rows, not the claimed 55:
pandas `rolling(200)` is already defined at the 200th bar (index 199), so
the emitted rows are indices 199..254. -/
theorem tabular_scenario_counterexample :
    DF.height (compute_orthogonal_features scenarioDF).2 ≠ 55 := by
  rw [scenario_height2]
  decide

/-- C2 amended: on the 260-bar scenario series the Tabular Feature
Assembler emits exactly 56 rows (`260 − 199 − 5`: the slow trend ratio is
first defined at bar index 199 and the last 5 bars lack the forward
return), with oscillator exactly 100 on every emitted row and every label
equal to 1. -/
theorem tabular_scenario_amended :
    DF.height (compute_orthogonal_features scenarioDF).2 = 56 ∧
    DF.getCol (compute_orthogonal_features scenarioDF).2 "RSI_14" =
      List.replicate 56 (FP.fin 100) ∧
    DF.getCol (compute_orthogonal_features scenarioDF).2 "Target" =
      List.replicate 56 (FP.fin 1) :=
  ⟨scenario_height2, scenario_cols.2.1, scenario_cols.2.2⟩

set_option maxRecDepth 400000 in
/-- C8 counterexample: the Tabular Feature Assembler is not a pure
transform — after the call on the 260-bar scenario frame the caller's
input frame has changed (seven derived columns were added in place and
`dropna(inplace=True)` dropped rows). -/
theorem assembler_mutation_counterexample :
    (compute_orthogonal_features scenarioDF).1 ≠ scenarioDF := by
  intro h
  have hk := congrArg (List.map Prod.fst) h
  rw [scenario_mutated_keys] at hk
  simp [scenarioDF] at hk

set_option maxRecDepth 400000 in
/-- C8 amended: the assembler mutates the caller's frame in place on any
frame of at least 200 rows — it appends the seven derived columns and
drops the NaN rows from the caller's object (the scenario frame shrinks
from 260 to 56 rows) and returns the `features_to_keep` projection of
that mutated frame; only frames with fewer than 200 rows are returned
unchanged, with an empty result. -/
theorem assembler_mutation_amended :
    (∀ df : DF, DF.height df < 200 →
      (compute_orthogonal_features df).1 = df ∧
      (compute_orthogonal_features df).2 = []) ∧
    (compute_orthogonal_features scenarioDF).1.map Prod.fst =
      ["Open", "High", "Low", "Close", "Volume", "RSI_14", "SMA_Ratio",
       "ATR_Pct", "Vol_SMA_20", "Relative_Volume", "Forward_5D_Return",
       "Target"] ∧
    DF.height (compute_orthogonal_features scenarioDF).1 = 56 ∧
    (compute_orthogonal_features scenarioDF).2 =
      DF.select (compute_orthogonal_features scenarioDF).1 featuresToKeep := by
  refine ⟨fun df h => ?_, scenario_mutated_keys, scenario_height1, ?_⟩
  · constructor <;> simp [compute_orthogonal_features, h]
  · with_unfolding_all rfl

set_option maxRecDepth 400000 in
/-- Witness for C8 amended: a one-row frame is below the 200-row minimum
and is returned unmutated with an empty result. -/
theorem assembler_mutation_witness :
    (compute_orthogonal_features [("Close", [FP.fin 1])]).1 =
      [("Close", [FP.fin 1])] ∧
    (compute_orthogonal_features [("Close", [FP.fin 1])]).2 = [] :=
  assembler_mutation_amended.1 _ (by decide)

/-! ## Theorems: the momentum oscillator (C5), tabular counterexample -/

set_option maxRecDepth 400000 in
/-- C5 counterexample: on a flat 20-bar series the tabular implementation
has trailing mean loss exactly 0 at index 15, yet the oscillator there is
NaN (the row is later excluded), not 100: `rs = gain/loss` is `0/0`.
This refutes the claim that a zero mean loss yields exactly 100 in both
implementations. -/
theorem oscillator_counterexample :
    getF (rsiLoss (List.replicate 20 (FP.fin 100))) 15 = FP.fin 0 ∧
    getF (rsiCol (List.replicate 20 (FP.fin 100))) 15 = FP.nan ∧
    getF (rsiCol (List.replicate 20 (FP.fin 100))) 15 ≠ FP.fin 100 := by
  refine ⟨by with_unfolding_all rfl, by with_unfolding_all rfl, ?_⟩
  have h : getF (rsiCol (List.replicate 20 (FP.fin 100))) 15 = FP.nan := by
    with_unfolding_all rfl
  rw [h]
  intro hc
  exact FP.noConfusion hc

/-! ## Helper lemmas for the sequential path -/

/-- Taking `k+1` then dropping the head is dropping the head then taking
`k`. -/
theorem take_tail_comm {α : Type} (l : List α) (k : ℕ) :
    (l.take (k + 1)).tail = l.tail.take k := by
  cases l <;> simp

/-- A window `[a, a+p)` of a list is determined by its first `n ≥ a + p`
elements. -/
theorem slice_congr {α : Type} {l1 l2 : List α} (a p n : ℕ)
    (h : l1.take n = l2.take n) (hap : a + p ≤ n) :
    (l1.drop a).take p = (l2.drop a).take p := by
  calc (l1.drop a).take p = (l1.take (a + p)).drop a := List.take_drop ..
    _ = ((l1.take n).take (a + p)).drop a := by
        rw [List.take_take, Nat.min_eq_left hap]
    _ = ((l2.take n).take (a + p)).drop a := by rw [h]
    _ = (l2.take (a + p)).drop a := by rw [List.take_take, Nat.min_eq_left hap]
    _ = (l2.drop a).take p := (List.take_drop ..).symm

/-- An element below index `n` is determined by the first `n` elements. -/
theorem getD_congr {α : Type} {l1 l2 : List α} (i n : ℕ) (d : α)
    (h : l1.take n = l2.take n) (hi : i < n) : l1.getD i d = l2.getD i d := by
  rw [List.getD_eq_getElem?_getD, List.getD_eq_getElem?_getD]
  have t1 : (l1.take n)[i]? = l1[i]? := by rw [List.getElem?_take, if_pos hi]
  have t2 : (l2.take n)[i]? = l2[i]? := by rw [List.getElem?_take, if_pos hi]
  rw [← t1, ← t2, h]

/-- First-difference-style series (`zipWith f l l.tail`) agree up to `k`
when the underlying series agree up to `k+1`. -/
theorem zipWith_tail_take {α β : Type} (f : α → α → β) (l1 l2 : List α)
    (k : ℕ) (h : l1.take (k + 1) = l2.take (k + 1)) :
    (List.zipWith f l1 l1.tail).take k = (List.zipWith f l2 l2.tail).take k := by
  have h1 : l1.take k = l2.take k := by
    have := congrArg (List.take k) h
    simpa [List.take_take, Nat.min_eq_left (Nat.le_succ k)] using this
  have h2 : l1.tail.take k = l2.tail.take k := by
    rw [← take_tail_comm, ← take_tail_comm, h]
  rw [List.take_zipWith, List.take_zipWith, h1, h2]

/-- The series `np.diff(np.log(closes))` has one entry fewer than the series. -/
theorem logReturns_length (closes : List ℝ) :
    (logReturns closes).length = closes.length - 1 := by
  simp [logReturns, List.length_zipWith]

/-- The series `np.diff(prices)` has one entry fewer than the series. -/
theorem seqDeltas_length (prices : List ℝ) :
    (seqDeltas prices).length = prices.length - 1 := by
  simp [seqDeltas, List.length_zipWith]

/-- The Sequence Windowizer emits exactly `L − 1 − W` samples. -/
theorem create_sequences_fst_length (closes volumes : List ℝ) (W : ℕ) :
    (create_sequences_multi_factor closes volumes W).1.length =
      closes.length - 1 - W := by
  rw [create_sequences_multi_factor]
  split
  · next hlt => simp; omega
  · simp [logReturns_length]

/-- The Sequence Windowizer emits exactly `L − 1 − W` labels. -/
theorem create_sequences_snd_length (closes volumes : List ℝ) (W : ℕ) :
    (create_sequences_multi_factor closes volumes W).2.length =
      closes.length - 1 - W := by
  rw [create_sequences_multi_factor]
  split
  · next hlt => simp; omega
  · simp [logReturns_length]

/-- Reading an element of `(range n).map f`. -/
theorem getD_map_range {β : Type} (f : ℕ → β) {n i : ℕ} (d : β) (h : i < n) :
    ((List.range n).map f).getD i d = f i := by
  rw [List.getD_eq_getElem _ _ (by simpa using h)]
  simp

/-- The `i`-th emitted feature vector: the `W` log returns ending at bar
`i + W`, then the four indicators evaluated at `i + W` (the oscillator
scaled by `1/100`). -/
theorem create_sequences_window (closes volumes : List ℝ) (W i : ℕ)
    (h : i < closes.length - 1 - W) :
    ((create_sequences_multi_factor closes volumes W).1).getD i [] =
      ((logReturns closes).drop i).take W ++
        [calculate_rsi closes 14 (i + W) / 100,
         calculate_sma_ratio closes 50 200 (i + W),
         calculate_atr_pct (closes.map fun c => c * (101 / 100))
           (closes.map fun c => c * (99 / 100)) closes 14 (i + W),
         calculate_relative_volume volumes 20 (i + W)] := by
  have hL : ¬ closes.length < 2 := by omega
  rw [create_sequences_multi_factor, if_neg hL]
  exact getD_map_range _ _ (by rw [logReturns_length]; omega)

/-- The `i`-th emitted label: the log return at index `i + W`. -/
theorem create_sequences_label (closes volumes : List ℝ) (W i : ℕ)
    (h : i < closes.length - 1 - W) :
    ((create_sequences_multi_factor closes volumes W).2).getD i 0 =
      (logReturns closes).getD (i + W) 0 := by
  have hL : ¬ closes.length < 2 := by omega
  rw [create_sequences_multi_factor, if_neg hL]
  exact getD_map_range _ _ (by rw [logReturns_length]; omega)

/-- Log returns of a flat series are all zero. -/
theorem logReturns_replicate (n : ℕ) (c : ℝ) :
    logReturns (List.replicate n c) = List.replicate (n - 1) 0 := by
  rw [logReturns, List.tail_replicate, List.zipWith_replicate]
  simp [Nat.min_eq_right (Nat.sub_le n 1)]

/-! ## Theorems: the Sequence Windowizer scenario and count (C3) -/

/-- C3 counterexample: a 61-bar flat series fed to the Sequence
Windowizer with `W = 60` yields `len(log_returns) - seq_length
= 60 - 60 = 0` loop iterations, so the Windowizer emits no window at
all — not the claimed one window (the claim's own general formula
`L − 1 − W` also gives 0 here). -/
theorem windowizer_61_counterexample :
    (create_sequences_multi_factor (List.replicate 61 (100 : ℝ))
        (List.replicate 61 (1000000 : ℝ)) 60).1.length ≠ 1 := by
  rw [create_sequences_fst_length]
  simp

/-- C3 amended: the Windowizer's output for a length-`L` series has
exactly `L − 1 − W` windows and labels, ordered by end index ascending
(the `i`-th label is the log return at index `i + W`); a 61-bar flat
series with `W = 60` yields 0 windows, and a 62-bar flat series yields
exactly 1 window whose 60 log returns are all 0 and whose label is 0. -/
theorem windowizer_count_order_flat :
    (∀ (closes volumes : List ℝ) (W : ℕ),
      (create_sequences_multi_factor closes volumes W).1.length =
        closes.length - 1 - W ∧
      (create_sequences_multi_factor closes volumes W).2.length =
        closes.length - 1 - W) ∧
    (∀ (closes volumes : List ℝ) (W i : ℕ), i < closes.length - 1 - W →
      ((create_sequences_multi_factor closes volumes W).2).getD i 0 =
        (logReturns closes).getD (i + W) 0) ∧
    (create_sequences_multi_factor (List.replicate 61 (100 : ℝ))
        (List.replicate 61 (1000000 : ℝ)) 60).1.length = 0 ∧
    (create_sequences_multi_factor (List.replicate 62 (100 : ℝ))
        (List.replicate 62 (1000000 : ℝ)) 60).1.length = 1 ∧
    (((create_sequences_multi_factor (List.replicate 62 (100 : ℝ))
        (List.replicate 62 (1000000 : ℝ)) 60).1).getD 0 []).take 60 =
      List.replicate 60 0 ∧
    (create_sequences_multi_factor (List.replicate 62 (100 : ℝ))
        (List.replicate 62 (1000000 : ℝ)) 60).2 = [0] := by
  refine ⟨fun closes volumes W =>
      ⟨create_sequences_fst_length .., create_sequences_snd_length ..⟩,
    fun closes volumes W i h => create_sequences_label _ _ _ _ h,
    by rw [create_sequences_fst_length]; simp,
    by rw [create_sequences_fst_length]; simp,
    ?_, ?_⟩
  · rw [create_sequences_window _ _ 60 0 (by simp)]
    rw [logReturns_replicate]
    simp [List.take_replicate, List.take_append_of_le_length]
  · have hlen : (create_sequences_multi_factor (List.replicate 62 (100 : ℝ))
        (List.replicate 62 (1000000 : ℝ)) 60).2.length = 1 := by
      rw [create_sequences_snd_length]; simp
    obtain ⟨a, ha⟩ := List.length_eq_one.mp hlen
    have hval := create_sequences_label (List.replicate 62 (100 : ℝ))
        (List.replicate 62 (1000000 : ℝ)) 60 0 (by simp)
    rw [ha] at hval ⊢
    rw [logReturns_replicate] at hval
    simp at hval
    rw [hval]

/-! ## Theorems: run determinism (C1), scaling (C10), no leakage (C7), oscillator policy (C5) -/

/-- Claim C1 counterexample: two runs of the Sequence Windowizer on the
same 22-bar flat close series differ, because each run draws fresh
random synthetic volumes (`np.random.uniform` at line 120) and the
volume-ratio feature depends on the draw: the two concrete draws below
(both inside the drawn range `[800000, 1200000]`) give feature vectors
with volume ratio 1 versus 6/5. -/
theorem run_determinism_counterexample :
    create_sequences_multi_factor (List.replicate 22 (1 : ℝ))
        (List.replicate 22 (1000000 : ℝ)) 20 ≠
      create_sequences_multi_factor (List.replicate 22 (1 : ℝ))
        (List.replicate 20 (1000000 : ℝ) ++ [1200000, 1000000]) 20 := by
  intro h
  have h1 := congrArg (fun p => (Prod.fst p).getD 0 ([] : List ℝ)) h
  simp only at h1
  rw [create_sequences_window _ _ 20 0 (by simp),
      create_sequences_window _ _ 20 0 (by simp)] at h1
  have h2 : calculate_relative_volume (List.replicate 22 (1000000 : ℝ)) 20 20 =
      calculate_relative_volume
        (List.replicate 20 (1000000 : ℝ) ++ [1200000, 1000000]) 20 20 := by
    have := List.append_cancel_left h1
    simpa using this
  have e1 : calculate_relative_volume (List.replicate 22 (1000000 : ℝ)) 20 20 = 1 := by
    rw [calculate_relative_volume]
    rw [if_pos (by simp)]
    simp [List.drop_replicate, List.take_replicate, List.sum_replicate,
      List.getD_eq_getElem?_getD, List.getElem?_replicate]
    norm_num
  have e2 : calculate_relative_volume
      (List.replicate 20 (1000000 : ℝ) ++ [1200000, 1000000]) 20 20 = 6 / 5 := by
    rw [calculate_relative_volume]
    rw [if_pos (by simp)]
    have hdrop : ((List.replicate 20 (1000000 : ℝ) ++ [1200000, 1000000]).drop 0).take 20 =
        List.replicate 20 (1000000 : ℝ) := by
      rw [List.drop_zero, List.take_append_of_le_length (by simp),
        List.take_of_length_le (by simp)]
    rw [hdrop]
    have hgd : (List.replicate 20 (1000000 : ℝ) ++ [1200000, 1000000]).getD 20 0 =
        (1200000 : ℝ) := by
      rw [List.getD_eq_getElem?_getD, List.getElem?_append_right (by simp)]
      simp
    rw [hgd]
    simp [List.sum_replicate]
    norm_num
  rw [e1, e2] at h2
  norm_num at h2

/-- Claim C1 amended: the Windowizer is deterministic in everything
except the volume-ratio feature.  For any two volume draws on the same
close series, the labels are bit-identical, the number of emitted windows
is identical, and the first `W + 3` components of every feature vector
(the `W` log returns, the scaled oscillator, the trend ratio and the
volatility fraction) are bit-identical; only the last component (the
volume-relative ratio, computed from the per-run random synthetic
volumes) may differ. -/
theorem run_determinism_amended (closes v1 v2 : List ℝ) (W : ℕ) :
    (create_sequences_multi_factor closes v1 W).2 =
      (create_sequences_multi_factor closes v2 W).2 ∧
    (create_sequences_multi_factor closes v1 W).1.length =
      (create_sequences_multi_factor closes v2 W).1.length ∧
    ∀ i : ℕ,
      (((create_sequences_multi_factor closes v1 W).1).getD i []).take (W + 3) =
      (((create_sequences_multi_factor closes v2 W).1).getD i []).take (W + 3) := by
  refine ⟨?_, ?_, ?_⟩
  · rw [create_sequences_multi_factor, create_sequences_multi_factor]
    split <;> rfl
  · rw [create_sequences_fst_length, create_sequences_fst_length]
  · intro i
    by_cases hi : i < closes.length - 1 - W
    · rw [create_sequences_window _ _ _ _ hi, create_sequences_window _ _ _ _ hi]
      have hA : (((logReturns closes).drop i).take W).length = W := by
        rw [List.length_take, List.length_drop, logReturns_length]
        omega
      have key : ∀ l : List ℝ,
          (((logReturns closes).drop i).take W ++ l).take (W + 3) =
            ((logReturns closes).drop i).take W ++ l.take 3 := by
        intro l
        rw [show W + 3 = (((logReturns closes).drop i).take W).length + 3 by rw [hA],
          List.take_append]
      rw [key, key]
      simp
    · have hl1 : (create_sequences_multi_factor closes v1 W).1.length ≤ i := by
        rw [create_sequences_fst_length]; omega
      have hl2 : (create_sequences_multi_factor closes v2 W).1.length ≤ i := by
        rw [create_sequences_fst_length]; omega
      rw [List.getD_eq_default _ _ hl1, List.getD_eq_default _ _ hl2]

/-- The trailing mean gain of `calculate_rsi` is nonnegative. -/
theorem rsiAvgGain_nonneg (prices : List ℝ) (p i : ℕ) :
    0 ≤ rsiAvgGain prices p i := by
  rw [rsiAvgGain]
  apply div_nonneg _ (Nat.cast_nonneg p)
  apply List.sum_nonneg
  intro x hx
  have hx' : x ∈ seqGains prices :=
    List.drop_subset _ _ (List.take_subset _ _ hx)
  rw [seqGains] at hx'
  obtain ⟨d, _, rfl⟩ := List.mem_map.mp hx'
  split
  · next hd => linarith
  · exact le_refl 0

/-- The trailing mean loss of `calculate_rsi` is nonnegative. -/
theorem rsiAvgLoss_nonneg (prices : List ℝ) (p i : ℕ) :
    0 ≤ rsiAvgLoss prices p i := by
  rw [rsiAvgLoss]
  apply div_nonneg _ (Nat.cast_nonneg p)
  apply List.sum_nonneg
  intro x hx
  have hx' : x ∈ seqLosses prices :=
    List.drop_subset _ _ (List.take_subset _ _ hx)
  rw [seqLosses] at hx'
  obtain ⟨d, _, rfl⟩ := List.mem_map.mp hx'
  split
  · next hd => linarith
  · exact le_refl 0

/-- The sequential oscillator always lies in `[0, 100]` (the default
fill 50, the zero-loss branch 100, and the general formula all do). -/
theorem calculate_rsi_bounds (prices : List ℝ) (p j : ℕ) :
    0 ≤ calculate_rsi prices p j ∧ calculate_rsi prices p j ≤ 100 := by
  rw [calculate_rsi]
  split
  · split
    · norm_num
    · next hne =>
      have hg := rsiAvgGain_nonneg prices p (j - 1)
      have hl := rsiAvgLoss_nonneg prices p (j - 1)
      have hlpos : 0 < rsiAvgLoss prices p (j - 1) := lt_of_le_of_ne hl (Ne.symm hne)
      have hrs : 0 ≤ rsiAvgGain prices p (j - 1) / rsiAvgLoss prices p (j - 1) :=
        div_nonneg hg hl
      constructor
      · have hd : 100 / (1 + rsiAvgGain prices p (j - 1) / rsiAvgLoss prices p (j - 1)) ≤ 100 :=
          div_le_self (by norm_num) (by linarith)
        linarith
      · have hd : 0 < 100 / (1 + rsiAvgGain prices p (j - 1) / rsiAvgLoss prices p (j - 1)) :=
          div_pos (by norm_num) (by linarith)
        linarith
  · norm_num

/-- Claim C10: in every emitted feature vector the oscillator component
equals the momentum-oscillator value divided by 100 (so it lies in
`[0, 1]`, and the not-yet-computable fill appears as `0.5`, not `50.0`),
while the trend-ratio, volatility-fraction and volume-ratio components
are included un-scaled. -/
theorem window_feature_scaling (closes volumes : List ℝ) (W i : ℕ)
    (h : i < closes.length - 1 - W) :
    ((((create_sequences_multi_factor closes volumes W).1).getD i []).getD W 0 =
        calculate_rsi closes 14 (i + W) / 100 ∧
     (((create_sequences_multi_factor closes volumes W).1).getD i []).getD (W + 1) 0 =
        calculate_sma_ratio closes 50 200 (i + W) ∧
     (((create_sequences_multi_factor closes volumes W).1).getD i []).getD (W + 2) 0 =
        calculate_atr_pct (closes.map fun c => c * (101 / 100))
          (closes.map fun c => c * (99 / 100)) closes 14 (i + W) ∧
     (((create_sequences_multi_factor closes volumes W).1).getD i []).getD (W + 3) 0 =
        calculate_relative_volume volumes 20 (i + W)) ∧
    (0 ≤ calculate_rsi closes 14 (i + W) / 100 ∧
     calculate_rsi closes 14 (i + W) / 100 ≤ 1) ∧
    (i + W < 15 → calculate_rsi closes 14 (i + W) / 100 = 1 / 2) := by
  have hA : (((logReturns closes).drop i).take W).length = W := by
    rw [List.length_take, List.length_drop, logReturns_length]
    omega
  have key : ∀ (k : ℕ) (l : List ℝ),
      (((logReturns closes).drop i).take W ++ l).getD (W + k) 0 = l.getD k 0 := by
    intro k l
    rw [List.getD_eq_getElem?_getD, List.getD_eq_getElem?_getD,
      List.getElem?_append_right (by omega), hA, Nat.add_sub_cancel_left]
  refine ⟨?_, ?_, ?_⟩
  · rw [create_sequences_window _ _ _ _ h]
    refine ⟨?_, ?_, ?_, ?_⟩
    · have := key 0 [calculate_rsi closes 14 (i + W) / 100,
        calculate_sma_ratio closes 50 200 (i + W),
        calculate_atr_pct (closes.map fun c => c * (101 / 100))
          (closes.map fun c => c * (99 / 100)) closes 14 (i + W),
        calculate_relative_volume volumes 20 (i + W)]
      simpa using this
    · simpa using key 1 _
    · simpa using key 2 _
    · simpa using key 3 _
  · constructor
    · exact div_nonneg (calculate_rsi_bounds closes 14 (i + W)).1 (by norm_num)
    · have := (calculate_rsi_bounds closes 14 (i + W)).2
      linarith
  · intro hfill
    rw [calculate_rsi, if_neg (by omega)]
    norm_num

/-- Gains series agree up to `k` when the closes agree up to `k+1`. -/
theorem seqGains_take (c1 c2 : List ℝ) (k : ℕ)
    (h : c1.take (k + 1) = c2.take (k + 1)) :
    (seqGains c1).take k = (seqGains c2).take k := by
  rw [seqGains, seqGains, ← List.map_take, ← List.map_take]
  rw [seqDeltas, seqDeltas, zipWith_tail_take _ _ _ _ h]

/-- Losses series agree up to `k` when the closes agree up to `k+1`. -/
theorem seqLosses_take (c1 c2 : List ℝ) (k : ℕ)
    (h : c1.take (k + 1) = c2.take (k + 1)) :
    (seqLosses c1).take k = (seqLosses c2).take k := by
  rw [seqLosses, seqLosses, ← List.map_take, ← List.map_take]
  rw [seqDeltas, seqDeltas, zipWith_tail_take _ _ _ _ h]

/-- The trailing mean gain at `i` reads only closes of index `≤ i`. -/
theorem rsiAvgGain_congr (c1 c2 : List ℝ) (p i : ℕ) (hp : p ≤ i)
    (h : c1.take (i + 1) = c2.take (i + 1)) :
    rsiAvgGain c1 p i = rsiAvgGain c2 p i := by
  rw [rsiAvgGain, rsiAvgGain,
    slice_congr (i - p) p i (seqGains_take c1 c2 i h) (by omega)]

/-- The trailing mean loss at `i` reads only closes of index `≤ i`. -/
theorem rsiAvgLoss_congr (c1 c2 : List ℝ) (p i : ℕ) (hp : p ≤ i)
    (h : c1.take (i + 1) = c2.take (i + 1)) :
    rsiAvgLoss c1 p i = rsiAvgLoss c2 p i := by
  rw [rsiAvgLoss, rsiAvgLoss,
    slice_congr (i - p) p i (seqLosses_take c1 c2 i h) (by omega)]

/-- The sequential oscillator at `j` reads only closes of index `< j`
(given that `j` is inside the computed range of both series). -/
theorem calculate_rsi_congr (c1 c2 : List ℝ) (p j : ℕ)
    (h : c1.take j = c2.take j)
    (hj1 : j ≤ (seqDeltas c1).length) (hj2 : j ≤ (seqDeltas c2).length) :
    calculate_rsi c1 p j = calculate_rsi c2 p j := by
  rw [calculate_rsi, calculate_rsi]
  have hcond : (p + 1 ≤ j ∧ j ≤ (seqDeltas c1).length) =
      (p + 1 ≤ j ∧ j ≤ (seqDeltas c2).length) :=
    propext ⟨fun hx => ⟨hx.1, by omega⟩, fun hx => ⟨hx.1, by omega⟩⟩
  by_cases hg : p + 1 ≤ j
  · have hj : j - 1 + 1 = j := by omega
    have h' : c1.take (j - 1 + 1) = c2.take (j - 1 + 1) := by rw [hj]; exact h
    simp only [rsiAvgGain_congr c1 c2 p (j - 1) (by omega) h',
      rsiAvgLoss_congr c1 c2 p (j - 1) (by omega) h', hcond]
  · rw [if_neg (fun hx => hg hx.1), if_neg (fun hx => hg hx.1)]

/-- The trend ratio at `i` reads only closes of index `< i`. -/
theorem calculate_sma_ratio_congr (c1 c2 : List ℝ) (f s i : ℕ) (hf : f ≤ s)
    (h : c1.take i = c2.take i) (h1 : i < c1.length) (h2 : i < c2.length) :
    calculate_sma_ratio c1 f s i = calculate_sma_ratio c2 f s i := by
  rw [calculate_sma_ratio, calculate_sma_ratio]
  have hcond : (s ≤ i ∧ i < c1.length) = (s ≤ i ∧ i < c2.length) :=
    propext ⟨fun hx => ⟨hx.1, h2⟩, fun hx => ⟨hx.1, h1⟩⟩
  by_cases hg : s ≤ i
  · simp only [slice_congr (i - f) f i h (by omega),
      slice_congr (i - s) s i h (by omega), hcond]
  · rw [if_neg (fun hx => hg hx.1), if_neg (fun hx => hg hx.1)]

/-- Reading a mapped series below `n` only depends on the first `n`
source elements. -/
theorem getD_map_congr (c1 c2 : List ℝ) (g : ℝ → ℝ) (j n : ℕ)
    (h : c1.take n = c2.take n) (hj : j < n) :
    (c1.map g).getD j 0 = (c2.map g).getD j 0 := by
  apply getD_congr j n
  · rw [← List.map_take, ← List.map_take, h]
  · exact hj

/-- The volatility fraction at `i`, on the synthesized high/low series,
reads only closes of index `≤ i`. -/
theorem calculate_atr_pct_congr (c1 c2 : List ℝ) (fh fl : ℝ → ℝ) (p i : ℕ)
    (h : c1.take (i + 1) = c2.take (i + 1))
    (h1 : i < c1.length) (h2 : i < c2.length) :
    calculate_atr_pct (c1.map fh) (c1.map fl) c1 p i =
      calculate_atr_pct (c2.map fh) (c2.map fl) c2 p i := by
  rw [calculate_atr_pct, calculate_atr_pct]
  have hcond : (p + 1 ≤ i ∧ i < c1.length) = (p + 1 ≤ i ∧ i < c2.length) :=
    propext ⟨fun hx => ⟨hx.1, h2⟩, fun hx => ⟨hx.1, h1⟩⟩
  by_cases hg : p + 1 ≤ i
  · have hcur : c1.getD i 0 = c2.getD i 0 := getD_congr i (i + 1) 0 h (by omega)
    have htr : ((List.range p).map fun k =>
        max ((c1.map fh).getD (i - p + k) 0 - (c1.map fl).getD (i - p + k) 0)
          (max |(c1.map fh).getD (i - p + k) 0 - c1.getD (i - p + k - 1) 0|
               |(c1.map fl).getD (i - p + k) 0 - c1.getD (i - p + k - 1) 0|)) =
        ((List.range p).map fun k =>
        max ((c2.map fh).getD (i - p + k) 0 - (c2.map fl).getD (i - p + k) 0)
          (max |(c2.map fh).getD (i - p + k) 0 - c2.getD (i - p + k - 1) 0|
               |(c2.map fl).getD (i - p + k) 0 - c2.getD (i - p + k - 1) 0|)) := by
      apply List.map_congr_left
      intro k hk
      have hkp : k < p := List.mem_range.mp hk
      have hjlt : i - p + k < i + 1 := by omega
      have hjlt' : i - p + k - 1 < i + 1 := by omega
      rw [getD_map_congr c1 c2 fh _ _ h hjlt, getD_map_congr c1 c2 fl _ _ h hjlt,
        getD_congr (i - p + k - 1) (i + 1) 0 h hjlt']
    simp only [htr, hcur, hcond]
  · rw [if_neg (fun hx => hg hx.1), if_neg (fun hx => hg hx.1)]

/-- The volume-relative ratio at `i` reads only volumes of index `≤ i`. -/
theorem calculate_relative_volume_congr (v1 v2 : List ℝ) (p i : ℕ)
    (h : v1.take (i + 1) = v2.take (i + 1))
    (h1 : i < v1.length) (h2 : i < v2.length) :
    calculate_relative_volume v1 p i = calculate_relative_volume v2 p i := by
  rw [calculate_relative_volume, calculate_relative_volume]
  have hcond : (p ≤ i ∧ i < v1.length) = (p ≤ i ∧ i < v2.length) :=
    propext ⟨fun hx => ⟨hx.1, h2⟩, fun hx => ⟨hx.1, h1⟩⟩
  by_cases hg : p ≤ i
  · have hs : (v1.drop (i - p)).take p = (v2.drop (i - p)).take p :=
      slice_congr (i - p) p (i + 1) h (by omega)
    have hcur : v1.getD i 0 = v2.getD i 0 := getD_congr i (i + 1) 0 h (by omega)
    simp only [hs, hcur, hcond]
  · rw [if_neg (fun hx => hg hx.1), if_neg (fun hx => hg hx.1)]

/-- Claim C7 (no leakage): for the window emitted at position `i` (end
index `t = i + W`), every component of the feature vector is a function
only of the price bars and drawn volumes with index `≤ t` — two
series agreeing up to `t` produce the identical vector — and the label
is exactly the log return realized at bar `t + 1` (so it is a function
of bars up to `t + 1` only). -/
theorem no_leakage (c1 c2 v1 v2 : List ℝ) (W i : ℕ)
    (hv1 : v1.length = c1.length) (hv2 : v2.length = c2.length)
    (h1 : i < c1.length - 1 - W) (h2 : i < c2.length - 1 - W) :
    (c1.take (i + W + 1) = c2.take (i + W + 1) →
      v1.take (i + W + 1) = v2.take (i + W + 1) →
      ((create_sequences_multi_factor c1 v1 W).1).getD i [] =
        ((create_sequences_multi_factor c2 v2 W).1).getD i []) ∧
    (c1.take (i + W + 2) = c2.take (i + W + 2) →
      ((create_sequences_multi_factor c1 v1 W).2).getD i 0 =
        ((create_sequences_multi_factor c2 v2 W).2).getD i 0) ∧
    ((create_sequences_multi_factor c1 v1 W).2).getD i 0 =
      Real.log (c1.getD (i + W + 1) 0) - Real.log (c1.getD (i + W) 0) := by
  refine ⟨fun hc hv => ?_, fun hc => ?_, ?_⟩
  · rw [create_sequences_window _ _ _ _ h1, create_sequences_window _ _ _ _ h2]
    have hlr : (logReturns c1).take (i + W) = (logReturns c2).take (i + W) := by
      rw [logReturns, logReturns]
      apply zipWith_tail_take
      have := congrArg (List.take (i + W + 1)) hc
      simpa [List.take_take, Nat.min_eq_left (Nat.le_succ (i + W))] using this
    have hwin : ((logReturns c1).drop i).take W = ((logReturns c2).drop i).take W :=
      slice_congr i W (i + W) hlr (by omega)
    have htake : c1.take (i + W) = c2.take (i + W) := by
      have := congrArg (List.take (i + W)) hc
      simpa [List.take_take, Nat.min_eq_left (Nat.le_succ (i + W))] using this
    have hrsi : calculate_rsi c1 14 (i + W) = calculate_rsi c2 14 (i + W) := by
      apply calculate_rsi_congr _ _ _ _ htake <;> rw [seqDeltas_length] <;> omega
    have hsma : calculate_sma_ratio c1 50 200 (i + W) =
        calculate_sma_ratio c2 50 200 (i + W) :=
      calculate_sma_ratio_congr c1 c2 50 200 (i + W) (by norm_num) htake
        (by omega) (by omega)
    have hatr : calculate_atr_pct (c1.map fun c => c * (101 / 100))
        (c1.map fun c => c * (99 / 100)) c1 14 (i + W) =
        calculate_atr_pct (c2.map fun c => c * (101 / 100))
          (c2.map fun c => c * (99 / 100)) c2 14 (i + W) :=
      calculate_atr_pct_congr c1 c2 _ _ 14 (i + W) hc (by omega) (by omega)
    have hrv : calculate_relative_volume v1 20 (i + W) =
        calculate_relative_volume v2 20 (i + W) :=
      calculate_relative_volume_congr v1 v2 20 (i + W) hv (by omega) (by omega)
    rw [hwin, hrsi, hsma, hatr, hrv]
  · rw [create_sequences_label _ _ _ _ h1, create_sequences_label _ _ _ _ h2]
    apply getD_congr (i + W) (i + W + 1)
    · rw [logReturns, logReturns]
      exact zipWith_tail_take _ _ _ _ hc
    · omega
  · rw [create_sequences_label _ _ _ _ h1]
    have hlen : i + W < (logReturns c1).length := by rw [logReturns_length]; omega
    rw [List.getD_eq_getElem _ _ hlen]
    have hc1 : i + W < c1.length := by omega
    have hc1' : i + W + 1 < c1.length := by omega
    rw [List.getD_eq_getElem _ _ hc1', List.getD_eq_getElem _ _ hc1]
    simp only [logReturns, List.getElem_zipWith, List.getElem_tail]

/-- Series length is preserved by `diff()`. -/
theorem sdiff_length (l : List FP) : (sdiff l).length = l.length := by
  cases l with
  | nil => rfl
  | cons a t => simp [sdiff, List.length_zipWith]

/-- Series length is preserved by `rolling(p).mean()`. -/
theorem rollingMean_length (p : ℕ) (l : List FP) :
    (rollingMean p l).length = l.length := by
  simp [rollingMean]

/-- Series length is preserved by the gain column. -/
theorem rsiGain_length (close : List FP) :
    (rsiGain close).length = close.length := by
  simp [rsiGain, rollingMean_length, whereGtZero, sdiff_length]

/-- Series length is preserved by the loss column. -/
theorem rsiLoss_length (close : List FP) :
    (rsiLoss close).length = close.length := by
  simp [rsiLoss, rollingMean_length, negWhereLtZero, sdiff_length]

/-- Series length is preserved by the oscillator column. -/
theorem rsiCol_length (close : List FP) :
    (rsiCol close).length = close.length := by
  simp [rsiCol, List.length_zipWith, rsiGain_length, rsiLoss_length]

/-- Out-of-range reads give NaN. -/
theorem getF_eq_nan_of_le {l : List FP} {i : ℕ} (h : l.length ≤ i) :
    getF l i = FP.nan := by
  rw [getF, List.getD_eq_default _ _ h]

/-- Reading an elementwise combination of two series. -/
theorem getF_zipWith (f : FP → FP → FP) (a b : List FP) (i : ℕ)
    (h1 : i < a.length) (h2 : i < b.length) :
    getF (List.zipWith f a b) i = f (getF a i) (getF b i) := by
  rw [getF, getF, getF, List.getD_eq_getElem _ _ h1, List.getD_eq_getElem _ _ h2,
    List.getD_eq_getElem _ _ (by rw [List.length_zipWith]; omega),
    List.getElem_zipWith]

/-- Entries of the `gain` series are nonnegative finite values or `+∞`. -/
theorem whereGtZero_entries (l : List FP) :
    ∀ v ∈ whereGtZero l, v = FP.pinf ∨ ∃ q : ℚ, 0 ≤ q ∧ v = FP.fin q := by
  intro v hv
  obtain ⟨x, _, rfl⟩ := List.mem_map.mp hv
  cases x with
  | nan => exact Or.inr ⟨0, le_refl 0, rfl⟩
  | pinf => exact Or.inl rfl
  | ninf => exact Or.inr ⟨0, le_refl 0, rfl⟩
  | fin a =>
    by_cases ha : 0 < a
    · refine Or.inr ⟨a, ha.le, ?_⟩
      simp [FP.gtQ, ha]
    · refine Or.inr ⟨0, le_refl 0, ?_⟩
      simp [FP.gtQ, ha]

/-- Entries of the `loss` series are nonnegative finite values or `+∞`. -/
theorem negWhereLtZero_entries (l : List FP) :
    ∀ v ∈ negWhereLtZero l, v = FP.pinf ∨ ∃ q : ℚ, 0 ≤ q ∧ v = FP.fin q := by
  intro v hv
  obtain ⟨x, _, rfl⟩ := List.mem_map.mp hv
  cases x with
  | nan => exact Or.inr ⟨0, le_refl 0, by simp [FP.ltQ, FP.neg]⟩
  | pinf => exact Or.inr ⟨0, le_refl 0, by simp [FP.ltQ, FP.neg]⟩
  | ninf => exact Or.inl (by simp [FP.ltQ, FP.neg])
  | fin a =>
    by_cases ha : a < 0
    · refine Or.inr ⟨-a, by linarith, ?_⟩
      simp [FP.ltQ, ha, FP.neg]
    · refine Or.inr ⟨0, le_refl 0, ?_⟩
      simp [FP.ltQ, ha, FP.neg]

/-- Sums of nonnegative-or-`+∞` values are nonnegative-or-`+∞`. -/
theorem sumL_entries (l : List FP)
    (h : ∀ v ∈ l, v = FP.pinf ∨ ∃ q : ℚ, 0 ≤ q ∧ v = FP.fin q) :
    FP.sumL l = FP.pinf ∨ ∃ q : ℚ, 0 ≤ q ∧ FP.sumL l = FP.fin q := by
  induction l with
  | nil => exact Or.inr ⟨0, le_refl 0, rfl⟩
  | cons a t ih =>
    have ha := h a (List.mem_cons_self a t)
    have ht := ih fun v hv => h v (List.mem_cons_of_mem a hv)
    rw [FP.sumL, List.foldr_cons]
    rcases ha with ha | ⟨qa, hqa, ha⟩ <;>
      rcases ht with ht | ⟨qt, hqt, ht⟩ <;>
      rw [ha, FP.sumL] at * <;> rw [ht]
    · exact Or.inl rfl
    · exact Or.inl rfl
    · exact Or.inl rfl
    · exact Or.inr ⟨qa + qt, by linarith, rfl⟩

/-- Every defined rolling-mean entry of a nonnegative-or-`+∞` series is
nonnegative-or-`+∞`; before the window fills it is NaN. -/
theorem rollingMean_entries (p : ℕ) (hp : 0 < p) (l : List FP)
    (hl : ∀ v ∈ l, v = FP.pinf ∨ ∃ q : ℚ, 0 ≤ q ∧ v = FP.fin q) (i : ℕ) :
    getF (rollingMean p l) i = FP.nan ∨
    getF (rollingMean p l) i = FP.pinf ∨
    ∃ q : ℚ, 0 ≤ q ∧ getF (rollingMean p l) i = FP.fin q := by
  by_cases hi : i < l.length
  · have hread : getF (rollingMean p l) i =
        if i + 1 < p then FP.nan
        else (FP.sumL (windowSlice l i p)).div (FP.fin p) := by
      rw [getF, rollingMean, List.getD_eq_getElem _ _ (by simpa using hi)]
      simp
    rw [hread]
    split
    · exact Or.inl rfl
    · have hw : ∀ v ∈ windowSlice l i p,
          v = FP.pinf ∨ ∃ q : ℚ, 0 ≤ q ∧ v = FP.fin q := by
        intro v hv
        exact hl v (List.drop_subset _ _ (List.take_subset _ _ hv))
      have hpne : ((p : ℚ)) ≠ 0 := by positivity
      have hpnlt : ¬ ((p : ℚ) < 0) := not_lt.mpr (Nat.cast_nonneg p)
      rcases sumL_entries _ hw with hs | ⟨q, hq, hs⟩
      · rw [hs]
        refine Or.inr (Or.inl ?_)
        simp [FP.div, hpnlt]
      · rw [hs]
        refine Or.inr (Or.inr ⟨q / p, by positivity, ?_⟩)
        simp [FP.div, hpne]
  · exact Or.inl (getF_eq_nan_of_le (by rw [rollingMean_length]; omega))

/-- Every defined (finite) entry of the tabular oscillator column lies
in `[0, 100]`. -/
theorem rsiCol_bounds (close : List FP) (i : ℕ) (v : ℚ)
    (hv : getF (rsiCol close) i = FP.fin v) : 0 ≤ v ∧ v ≤ 100 := by
  by_cases hi : i < close.length
  · rw [rsiCol, getF_zipWith _ _ _ i (by rw [rsiGain_length]; exact hi)
      (by rw [rsiLoss_length]; exact hi)] at hv
    have hg' := rollingMean_entries 14 (by norm_num) _
      (whereGtZero_entries (sdiff close)) i
    have hl' := rollingMean_entries 14 (by norm_num) _
      (negWhereLtZero_entries (sdiff close)) i
    rw [show rollingMean 14 (whereGtZero (sdiff close)) = rsiGain close from rfl] at hg'
    rw [show rollingMean 14 (negWhereLtZero (sdiff close)) = rsiLoss close from rfl] at hl'
    rcases hg' with hg | hg | ⟨a, ha, hg⟩ <;> rcases hl' with hl | hl | ⟨b, hb, hl⟩ <;>
      rw [hg, hl] at hv
    all_goals try (exfalso; simp [FP.div, FP.add, FP.sub, FP.neg] at hv; done)
    · -- gain = +∞, loss = fin b ≥ 0: oscillator is exactly 100
      simp [FP.div, FP.add, FP.sub, FP.neg, not_lt.mpr hb] at hv
      subst hv
      norm_num
    · -- gain = fin a ≥ 0, loss = +∞: oscillator is exactly 0
      simp [FP.div, FP.add, FP.sub, FP.neg] at hv
      subst hv
      norm_num
    · -- gain = fin a ≥ 0, loss = fin b ≥ 0
      by_cases hb0 : b = 0
      · by_cases ha0 : a = 0
        · exfalso
          simp [FP.div, FP.add, FP.sub, FP.neg, hb0, ha0] at hv
        · have hapos : 0 < a := lt_of_le_of_ne ha (Ne.symm ha0)
          simp [FP.div, FP.add, FP.sub, FP.neg, hb0, ha0, hapos] at hv
          subst hv
          norm_num
      · have hbpos : 0 < b := lt_of_le_of_ne hb (Ne.symm hb0)
        have hrs : 0 ≤ a / b := div_nonneg ha hb
        have hden : (0 : ℚ) < 1 + a / b := by linarith
        simp [FP.div, FP.add, FP.sub, FP.neg, hb0, hden.ne'] at hv
        have hd1 : 100 / (1 + a / b) ≤ 100 := div_le_self (by norm_num) (by linarith)
        have hd2 : 0 < 100 / (1 + a / b) := div_pos (by norm_num) hden
        constructor <;> [linarith [hv]; linarith [hv]]
  · have hnan : getF (rsiCol close) i = FP.nan :=
      getF_eq_nan_of_le (by rw [rsiCol_length]; omega)
    rw [hnan] at hv
    exact absurd hv (by simp)

/-- Zero trailing mean loss with positive mean gain gives oscillator
exactly 100 in the tabular column (`gain/0 = +∞` in float division). -/
theorem rsiCol_loss_zero_gain_pos (close : List FP) (i : ℕ) (g : ℚ)
    (hg : getF (rsiGain close) i = FP.fin g) (hgpos : 0 < g)
    (hl : getF (rsiLoss close) i = FP.fin 0) :
    getF (rsiCol close) i = FP.fin 100 := by
  have hi : i < close.length := by
    by_contra hi
    rw [getF_eq_nan_of_le (by rw [rsiLoss_length]; omega)] at hl
    exact FP.noConfusion hl
  rw [rsiCol, getF_zipWith _ _ _ i (by rw [rsiGain_length]; exact hi)
    (by rw [rsiLoss_length]; exact hi), hg, hl]
  simp [FP.div, FP.add, FP.sub, FP.neg, hgpos, hgpos.ne']

/-- Zero trailing mean loss with zero mean gain (a flat window) gives a
NaN oscillator entry in the tabular column (`0/0` is NaN). -/
theorem rsiCol_loss_zero_gain_zero (close : List FP) (i : ℕ)
    (hg : getF (rsiGain close) i = FP.fin 0)
    (hl : getF (rsiLoss close) i = FP.fin 0) :
    getF (rsiCol close) i = FP.nan := by
  have hi : i < close.length := by
    by_contra hi
    rw [getF_eq_nan_of_le (by rw [rsiLoss_length]; omega)] at hl
    exact FP.noConfusion hl
  rw [rsiCol, getF_zipWith _ _ _ i (by rw [rsiGain_length]; exact hi)
    (by rw [rsiLoss_length]; exact hi), hg, hl]
  simp [FP.div, FP.add, FP.sub, FP.neg]

/-- The sequential implementation's explicit zero-mean-loss policy:
inside the computed range, zero trailing mean loss gives exactly 100. -/
theorem calculate_rsi_zero_loss (prices : List ℝ) (p j : ℕ)
    (h1 : p + 1 ≤ j) (h2 : j ≤ (seqDeltas prices).length)
    (hz : rsiAvgLoss prices p (j - 1) = 0) :
    calculate_rsi prices p j = 100 := by
  rw [calculate_rsi, if_pos ⟨h1, h2⟩, if_pos hz]

/-- Flat series have zero trailing mean loss at every index. -/
theorem rsiAvgLoss_flat (n : ℕ) (c : ℝ) (p i : ℕ) :
    rsiAvgLoss (List.replicate n c) p i = 0 := by
  rw [rsiAvgLoss, seqLosses, seqDeltas, List.tail_replicate, List.zipWith_replicate]
  simp [List.map_replicate, List.drop_replicate, List.take_replicate,
    List.sum_replicate]

/-- Claim C5 amended: wherever the momentum oscillator is defined its
value lies in `[0, 100]`, in both implementations; when the trailing
mean loss is exactly zero the sequential implementation yields exactly
100 unconditionally, while the tabular implementation yields exactly 100
only when the mean gain is positive — when the window is entirely flat
(mean gain also zero) the tabular entry is NaN (`0/0`), not 100, and the
row is later excluded. -/
theorem oscillator_amended :
    (∀ (close : List FP) (i : ℕ) (v : ℚ),
      getF (rsiCol close) i = FP.fin v → 0 ≤ v ∧ v ≤ 100) ∧
    (∀ (close : List FP) (i : ℕ) (g : ℚ),
      getF (rsiGain close) i = FP.fin g → 0 < g →
      getF (rsiLoss close) i = FP.fin 0 →
      getF (rsiCol close) i = FP.fin 100) ∧
    (∀ (close : List FP) (i : ℕ),
      getF (rsiGain close) i = FP.fin 0 →
      getF (rsiLoss close) i = FP.fin 0 →
      getF (rsiCol close) i = FP.nan) ∧
    (∀ (prices : List ℝ) (p j : ℕ),
      0 ≤ calculate_rsi prices p j ∧ calculate_rsi prices p j ≤ 100) ∧
    (∀ (prices : List ℝ) (p j : ℕ),
      p + 1 ≤ j → j ≤ (seqDeltas prices).length →
      rsiAvgLoss prices p (j - 1) = 0 →
      calculate_rsi prices p j = 100) :=
  ⟨rsiCol_bounds, rsiCol_loss_zero_gain_pos, rsiCol_loss_zero_gain_zero,
   calculate_rsi_bounds, calculate_rsi_zero_loss⟩

set_option maxRecDepth 400000 in
/-- Witness for C5 amended: the strictly increasing scenario closes at
index 15 (oscillator defined, equal to 100, mean gain 1, mean loss 0)
and a flat 20-bar real series at index 16 for the sequential policy. -/
theorem oscillator_amended_witness :
    ((0 : ℚ) ≤ 100 ∧ (100 : ℚ) ≤ 100) ∧
    getF (rsiCol scenarioClose) 15 = FP.fin 100 ∧
    calculate_rsi (List.replicate 20 (1 : ℝ)) 14 16 = 100 := by
  refine ⟨oscillator_amended.1 scenarioClose 15 100 ?h1,
      oscillator_amended.2.1 scenarioClose 15 1 ?h2 (by norm_num) ?h3,
      oscillator_amended.2.2.2.2 (List.replicate 20 (1 : ℝ)) 14 16
        (by norm_num) ?h4 (rsiAvgLoss_flat 20 1 14 15)⟩
  case h1 => with_unfolding_all rfl
  case h2 => with_unfolding_all rfl
  case h3 => with_unfolding_all rfl
  case h4 => rw [seqDeltas_length]; simp

/-- Witness for C3 amended: the label characterization applied to the
62-bar flat series at window 0. -/
theorem windowizer_witness :
    ((create_sequences_multi_factor (List.replicate 62 (100 : ℝ))
        (List.replicate 62 (1000000 : ℝ)) 60).2).getD 0 0 =
      (logReturns (List.replicate 62 (100 : ℝ))).getD (0 + 60) 0 :=
  windowizer_count_order_flat.2.1 _ _ 60 0 (by simp)

/-- Witness for C10: the 22-bar flat series with `W = 20` at window 0. -/
theorem window_feature_scaling_witness :
    (((create_sequences_multi_factor (List.replicate 22 (1 : ℝ))
        (List.replicate 22 (1 : ℝ)) 20).1).getD 0 []).getD 20 0 =
      calculate_rsi (List.replicate 22 (1 : ℝ)) 14 (0 + 20) / 100 ∧
    0 ≤ calculate_rsi (List.replicate 22 (1 : ℝ)) 14 (0 + 20) / 100 ∧
    calculate_rsi (List.replicate 22 (1 : ℝ)) 14 (0 + 20) / 100 ≤ 1 :=
  ⟨(window_feature_scaling _ _ 20 0 (by simp)).1.1,
   (window_feature_scaling (List.replicate 22 (1 : ℝ))
      (List.replicate 22 (1 : ℝ)) 20 0 (by simp)).2.1.1,
   (window_feature_scaling (List.replicate 22 (1 : ℝ))
      (List.replicate 22 (1 : ℝ)) 20 0 (by simp)).2.1.2⟩

/-- Witness for C7: a 22-bar flat series against a 23-bar series that
agrees on the first 22 bars — the emitted window and label at position 0
coincide, and the label is the log return at bar 21. -/
theorem no_leakage_witness :
    (((create_sequences_multi_factor (List.replicate 22 (1 : ℝ))
        (List.replicate 22 (1 : ℝ)) 20).1).getD 0 [] =
      ((create_sequences_multi_factor (List.replicate 22 (1 : ℝ) ++ [2])
        (List.replicate 23 (1 : ℝ)) 20).1).getD 0 []) ∧
    (((create_sequences_multi_factor (List.replicate 22 (1 : ℝ))
        (List.replicate 22 (1 : ℝ)) 20).2).getD 0 0 =
      ((create_sequences_multi_factor (List.replicate 22 (1 : ℝ) ++ [2])
        (List.replicate 23 (1 : ℝ)) 20).2).getD 0 0) ∧
    ((create_sequences_multi_factor (List.replicate 22 (1 : ℝ))
        (List.replicate 22 (1 : ℝ)) 20).2).getD 0 0 =
      Real.log ((List.replicate 22 (1 : ℝ)).getD (0 + 20 + 1) 0) -
        Real.log ((List.replicate 22 (1 : ℝ)).getD (0 + 20) 0) := by
  have h := no_leakage (List.replicate 22 (1 : ℝ)) (List.replicate 22 (1 : ℝ) ++ [2])
      (List.replicate 22 (1 : ℝ)) (List.replicate 23 (1 : ℝ)) 20 0
      (by simp) (by simp) (by simp) (by simp)
  exact ⟨h.1 (by rw [List.take_append_of_le_length (by simp)])
           (by simp [List.take_replicate]),
         h.2.1 (by simp [List.take_append_of_le_length, List.take_replicate]),
         h.2.2⟩

end StockSim
